import Mathlib

/-!
Verification development for the product-schema-builder repository: a shallow
embedding of its schema data model (`src/types/schema.ts`), the property-tree
editor operations (`src/components/SchemaBuilder.tsx`,
`src/components/PropertyBuilder.tsx`), the validator compiler and the
multi-step render plan (`src/components/DynamicForm.tsx`), together with
theorems settling the specification claims about them.

JavaScript `Record<string, T>` objects are modelled as association lists in
insertion order, with the object-literal spread/assignment/delete semantics
(`jsSet`, `jsDelete`, `jsGet`): assigning to an existing key overwrites the
value in place keeping its position, assigning a fresh key appends it at the
end, `delete` removes the entry.
-/

namespace PSB

/-- The closed set of property types of `SchemaProperty.type`
(`src/types/schema.ts`). -/
inductive PropType : Type where
  | pstring
  | pnumber
  | pboolean
  | parray
  | pobject
deriving DecidableEq, Repr

/-- Structure `SchemaProperty` from `src/types/schema.ts`: one field definition.
`Option` models absent (`undefined`) attributes.  `items` is the optional
`{type, format?}` element descriptor.  The `multiple` flag is not declared in
the TypeScript interface but is read and written by `PropertyBuilder.tsx` and
`DynamicForm.tsx`, so it is part of the runtime data model. -/
inductive SchemaProperty : Type where
  | mk (type : PropType) (description : Option String)
      (enum : Option (List String)) (format : Option String)
      (multiple : Option Bool) (items : Option (String × Option String))
      (properties : Option (List (String × SchemaProperty)))
      (required : Option (List String)) : SchemaProperty

/-- The `type` attribute. -/
def SchemaProperty.type : SchemaProperty → PropType
  | .mk t _ _ _ _ _ _ _ => t

/-- The `description` attribute. -/
def SchemaProperty.description : SchemaProperty → Option String
  | .mk _ d _ _ _ _ _ _ => d

/-- The `enum` attribute. -/
def SchemaProperty.enum : SchemaProperty → Option (List String)
  | .mk _ _ e _ _ _ _ _ => e

/-- The `format` attribute. -/
def SchemaProperty.format : SchemaProperty → Option String
  | .mk _ _ _ f _ _ _ _ => f

/-- The `multiple` attribute. -/
def SchemaProperty.multiple : SchemaProperty → Option Bool
  | .mk _ _ _ _ m _ _ _ => m

/-- The `items` attribute. -/
def SchemaProperty.items : SchemaProperty → Option (String × Option String)
  | .mk _ _ _ _ _ i _ _ => i

/-- The nested `properties` attribute. -/
def SchemaProperty.properties : SchemaProperty → Option (List (String × SchemaProperty))
  | .mk _ _ _ _ _ _ ps _ => ps

/-- The nested `required` attribute. -/
def SchemaProperty.required : SchemaProperty → Option (List String)
  | .mk _ _ _ _ _ _ _ r => r

/-- A `Record<string, SchemaProperty>` in insertion order. -/
abbrev PropMap := List (String × SchemaProperty)

/-- Keys of a JS object, in insertion order (`Object.keys`). -/
def jsKeys (m : List (String × α)) : List String := m.map Prod.fst

/-- Property read `m[k]`: the value at the first occurrence of key `k`. -/
def jsGet (m : List (String × α)) (k : String) : Option α :=
  (m.find? (fun kv => kv.1 = k)).map Prod.snd

/-- Property write `{...m, [k]: v}` / `m[k] = v`: overwrite in place if the
key exists (position preserved), append otherwise. -/
def jsSet (m : List (String × α)) (k : String) (v : α) : List (String × α) :=
  if m.any (fun kv => kv.1 = k) then
    m.map (fun kv => if kv.1 = k then (k, v) else kv)
  else
    m ++ [(k, v)]

/-- Deletion `delete m[k]`: drop the entry with key `k`. -/
def jsDelete (m : List (String × α)) (k : String) : List (String × α) :=
  m.filter (fun kv => kv.1 ≠ k)

/-- The default definition `{ type: 'string', description: '' }` given to a
freshly added property (`SchemaBuilder.tsx` `addProperty`,
`PropertyBuilder.tsx` `addNestedProperty`). -/
def defaultProp : SchemaProperty :=
  .mk .pstring (some "") none none none none none none

/-- Function `addProperty` from `SchemaBuilder.tsx`: inserts
`property_<count+1>` (count = `Object.keys(properties).length`) with the
default definition, via object-spread assignment. -/
def addProperty (props : PropMap) : PropMap :=
  jsSet props ("property_" ++ toString (props.length + 1)) defaultProp

/-- Function `updateProperty` from `SchemaBuilder.tsx`: replaces one named entry. -/
def updateProperty (props : PropMap) (name : String) (p : SchemaProperty) : PropMap :=
  jsSet props name p

/-- Function `removeProperty` from `SchemaBuilder.tsx`: deletes the entry and filters
the name out of `required`. -/
def removeProperty (props : PropMap) (req : List String) (name : String) :
    PropMap × List String :=
  (jsDelete props name, req.filter (fun r => r ≠ name))

/-- Function `toggleRequired` from `SchemaBuilder.tsx` (and the identical list logic of
`toggleNestedRequired` in `PropertyBuilder.tsx`): filter the name out if
present, append it otherwise.  The properties mapping is never consulted. -/
def toggleRequired (req : List String) (name : String) : List String :=
  if req.contains name then req.filter (fun r => r ≠ name)
  else req ++ [name]

/-- The full state update of the toggle-required handler: only `setRequired`
is called, the properties mapping is left as is. -/
def toggleRequiredState (props : PropMap) (req : List String) (name : String) :
    PropMap × List String :=
  (props, toggleRequired req name)

/-- The test `!s.trim()` of the rename guard: `s.trim()` is the empty string
(falsy) exactly when every character of `s` is whitespace. -/
def isBlank (s : String) : Bool :=
  s.data.all fun c => c = ' ' ∨ c = '\t' ∨ c = '\n' ∨ c = '\r'

/-- Function `renameProperty` from `SchemaBuilder.tsx` (and the identical logic of
`renameNestedProperty` in `PropertyBuilder.tsx`): guard
`if (oldName === newName || !newName.trim()) return;`, then
`newProperties[newName] = newProperties[oldName]; delete newProperties[oldName]`,
and rewrite `oldName` to `newName` in `required` when present.  When `oldName`
is absent JavaScript would bind `newName` to `undefined`; `SchemaProperty` has
no `undefined` inhabitant and the UI only renames existing keys, so the
embedding performs only the delete in that (dead) branch. -/
def renameProperty (props : PropMap) (req : List String)
    (oldName newName : String) : PropMap × List String :=
  if oldName = newName ∨ isBlank newName then (props, req)
  else
    let props' :=
      match jsGet props oldName with
      | some v => jsDelete (jsSet props newName v) oldName
      | none => jsDelete props oldName
    let req' :=
      if req.contains oldName then
        req.map (fun r => if r = oldName then newName else r)
      else req
    (props', req')

/-- The type `Select` handler of `PropertyBuilder.tsx`:
`onUpdate({ ...property, type: value, properties: value === 'object' ?
property.properties : undefined })`.  Every other attribute — including the
nested `required` list — is carried over by the spread. -/
def retypeProperty (p : SchemaProperty) (value : PropType) : SchemaProperty :=
  match p with
  | .mk _ d e f m i ps r =>
      .mk value d e f m i (if value = .pobject then ps else none) r

/-- The `Input Type` handler selecting `select` in `PropertyBuilder.tsx`:
`onUpdate({ ...property, enum: property.enum || [''], format: undefined })`.
Any array (even empty) is truthy in JavaScript, so an existing `enum` list is
kept as is. -/
def enableSelectMode (p : SchemaProperty) : SchemaProperty :=
  match p with
  | .mk t d e _ m i ps r => .mk t d (some (e.getD [""])) none m i ps r

/-- The `Add Option` handler of `PropertyBuilder.tsx`:
`onUpdate({ ...property, enum: [...(property.enum || []), ''] })`. -/
def addEnumOption (p : SchemaProperty) : SchemaProperty :=
  match p with
  | .mk t d e f m i ps r => .mk t d (some (e.getD [] ++ [""])) f m i ps r

/-- The per-option edit handler of `PropertyBuilder.tsx`:
`newEnum[index] = value` on a copy of `property.enum!`.  Only rendered when
`enum` is present; the absent case is unreachable and is a no-op here. -/
def editEnumOption (p : SchemaProperty) (idx : Nat) (value : String) : SchemaProperty :=
  match p with
  | .mk t d (some l) f m i ps r => .mk t d (some (l.set idx value)) f m i ps r
  | p => p

/-- The per-option remove handler of `PropertyBuilder.tsx`:
`newEnum = property.enum!.filter((_, i) => i !== index)` then
`enum: newEnum.length > 0 ? newEnum : undefined`. -/
def removeEnumOption (p : SchemaProperty) (idx : Nat) : SchemaProperty :=
  match p with
  | .mk t d (some l) f m i ps r =>
      let l' := l.eraseIdx idx
      .mk t d (if l'.length > 0 then some l' else none) f m i ps r
  | p => p

/-- The invariant claimed for the `enum` attribute: when present it is a
non-empty list. -/
def enumOk (p : SchemaProperty) : Prop :=
  match p.enum with
  | some l => l ≠ []
  | none => True

/-! ## Validator compiler (`createZodSchema` in `DynamicForm.tsx`)

The zod combinators the compiler can produce are reified as a rule AST; each
constructor is one zod expression occurring in `createZodSchema`. -/

/-- The validation rules producible by `createZodSchema`. -/
inductive Rule : Type where
  /-- Rule `z.string()` -/
  | str
  /-- Rule `z.string().email(...)` -/
  | email
  /-- Rule `z.date()` -/
  | date
  /-- Rule `z.array(z.string())` -/
  | arrStr
  /-- Rule `z.number()` -/
  | num
  /-- Rule `z.boolean()` -/
  | boolean
  /-- Rule `z.array(z.any())` -/
  | anyArr
  /-- Rule `z.object(\x7b\x7d)` — an object rule with no declared shape -/
  | emptyObj
  /-- Wrapper rule for `.optional()` -/
  | opt (r : Rule)
  /-- Rule `z.object(shape)` with the shape's fields in insertion order -/
  | obj (fields : List (String × Rule))

mutual

/-- The per-property `switch` of `createZodSchema` (`DynamicForm.tsx`,
lines 35-69), before the optional wrapper.  JavaScript truthiness: any array
is truthy (`property.enum`, `property.properties`), `property.multiple` is
truthy exactly when it is `true`. -/
def compileProp : SchemaProperty → Rule
  | .mk t _ e f m _ ps r =>
    match t with
    | .pstring =>
      if f = some "email" then .email
      else if f = some "date" ∨ f = some "date-time" then .date
      else match e with
        | some _ => match m with
          | some true => .arrStr
          | _ => .str
        | none => .str
    | .pnumber => .num
    | .pboolean => .boolean
    | .pobject =>
      match ps with
      | some props => .obj (compileShape props (r.getD []))
      | none => .emptyObj
    | .parray => .anyArr

/-- The `Object.entries(properties).forEach` loop of `createZodSchema`: each
field's rule, wrapped in `.optional()` when the key is not in `required`. -/
def compileShape : List (String × SchemaProperty) → List String → List (String × Rule)
  | [], _ => []
  | (k, p) :: rest, req =>
    (k, if req.contains k then compileProp p else .opt (compileProp p)) ::
      compileShape rest req

end

/-- Function `createZodSchema(properties, required)` (`DynamicForm.tsx`, lines 29-79):
`z.object` over the compiled shape. -/
def createZodSchema (props : PropMap) (req : List String) : Rule :=
  .obj (compileShape props req)

/-! ### Spec-side compiler

Written from the specification's words alone (§4.2's type/format table and
claim C1), to be compared with `createZodSchema`: string with format email
requires a valid email; string with format date or date-time requires a date
value; string with enum present and multiple true requires a sequence of
strings; string otherwise requires a string; number requires a numeric value;
boolean requires a boolean; object with a properties map is validated by the
recursively compiled sub-ruleset; object without properties accepts any
object; array accepts a sequence of any elements; and every field whose name
is not in the local required list additionally accepts absence. -/

mutual

/-- Spec-side rule for one property, following the claim's wording. -/
def specRuleFor : SchemaProperty → Rule
  | .mk t _ e f m _ ps r =>
    match t with
    | .pstring =>
      if f = some "email" then .email
      else if f = some "date" ∨ f = some "date-time" then .date
      else if e.isSome ∧ m = some true then .arrStr
      else .str
    | .pnumber => .num
    | .pboolean => .boolean
    | .pobject =>
      match ps with
      | some props => .obj (specShapeFor props (r.getD []))
      | none => .emptyObj
    | .parray => .anyArr

/-- Spec-side shape: each property gets the rule given by its type and
format; every field whose name is not in the local required list additionally
accepts absence (optional wrapper). -/
def specShapeFor : List (String × SchemaProperty) → List String → List (String × Rule)
  | [], _ => []
  | (k, p) :: rest, req =>
    (k, if req.contains k then specRuleFor p else .opt (specRuleFor p)) ::
      specShapeFor rest req

end

/-- Spec-side compiled ruleset. -/
def specZodSchema (props : PropMap) (req : List String) : Rule :=
  .obj (specShapeFor props req)

/-! ## Submitted values and rule checking

Validation happens once, at submission, against the compiled ruleset.  The
values a rendered form can hold are modelled as a small JSON-with-dates value
type; `check` models the zod library's (an external dependency's) acceptance
behaviour for exactly the rule constructors `createZodSchema` can produce:
`z.string()` accepts strings, `z.date()` accepts date values, `z.number()`
accepts numeric values, `z.boolean()` accepts booleans, `z.array(...)`
accepts sequences (element-checked for `z.array(z.string())`),
`z.object({})` accepts any object, `.optional()` additionally accepts
`undefined` (an absent key reads as `undefined`), and `z.object(shape)`
accepts objects whose declared fields all check. -/

/-- A runtime value of the rendered form: JSON values plus date values and
`undefined`. -/
inductive JValue : Type where
  | jstr (s : String)
  | jnum (q : ℚ)
  | jbool (b : Bool)
  | jdate
  | jarr (vs : List JValue)
  | jobj (fields : List (String × JValue))
  | jundef

/-- Abstraction of zod's syntactic email check (external library); no theorem
in this development depends on which strings it accepts. -/
def emailShaped (s : String) : Bool :=
  s.contains '@'

mutual

/-- Whether a value passes a compiled rule (zod acceptance semantics). -/
def check : Rule → JValue → Bool
  | .str, .jstr _ => true
  | .email, .jstr s => emailShaped s
  | .date, .jdate => true
  | .arrStr, .jarr vs => vs.all fun v =>
      match v with
      | .jstr _ => true
      | _ => false
  | .num, .jnum _ => true
  | .boolean, .jbool _ => true
  | .anyArr, .jarr _ => true
  | .emptyObj, .jobj _ => true
  | .opt _, .jundef => true
  | .opt r, v => check r v
  | .obj fields, .jobj kvs => checkFields fields kvs
  | _, _ => false

/-- Each declared field of an object shape checks against the value at its
key; a missing key reads as `undefined`. -/
def checkFields : List (String × Rule) → List (String × JValue) → Bool
  | [], _ => true
  | (k, r) :: rest, kvs =>
    check r ((jsGet kvs k).getD .jundef) && checkFields rest kvs

end

/-! ## Number input coercion (`DynamicForm.tsx`, number case)

The number widget's change handler is
`field.onChange(parseFloat(e.target.value) || 0)`.  `parseFloat?` models
JavaScript `parseFloat` on plain decimal notation: leading whitespace is
skipped, then an optional sign and digits with an optional fractional part
are read; if no digit is read the result is `NaN` (`none` here).  Exponent
suffixes, hexadecimal and `Infinity` are not modelled; no claim involves
them. -/

/-- Decimal value of a digit list. -/
def digitsVal (cs : List Char) : Nat :=
  cs.foldl (fun a c => a * 10 + (c.toNat - 48)) 0

/-- JavaScript `parseFloat` on decimal input; `none` is `NaN`. -/
def parseFloatQ (s : String) : Option ℚ :=
  let cs := s.data.dropWhile fun c => c = ' ' ∨ c = '\t' ∨ c = '\n' ∨ c = '\r'
  let sign : ℚ := if cs.head? = some '-' then -1 else 1
  let cs := if cs.head? = some '-' ∨ cs.head? = some '+' then cs.tail else cs
  let intPart := cs.takeWhile Char.isDigit
  let rest := cs.dropWhile Char.isDigit
  let fracPart :=
    match rest with
    | '.' :: r2 => r2.takeWhile Char.isDigit
    | _ => []
  if intPart = [] ∧ fracPart = [] then none
  else some (sign * ((digitsVal intPart : ℚ) +
    (digitsVal fracPart : ℚ) / (10 : ℚ) ^ fracPart.length))

/-- Coercion `parseFloat(v) || 0`: `NaN` (and `0` itself, which is falsy) become `0`. -/
def coerceNumberInput (s : String) : ℚ :=
  match parseFloatQ s with
  | some q => if q = 0 then 0 else q
  | none => 0

/-! ## Multi-step render plan (`DynamicForm.tsx`, lines 316-321) -/

/-- Step count `multiStep ? Math.ceil(propertyEntries.length / 3) : 1`;
`Math.ceil(n / 3)` over exact JavaScript numbers is `(n + 2) / 3` in natural
division. -/
def stepsCount (props : PropMap) (multiStep : Bool) : Nat :=
  if multiStep then (props.length + 2) / 3 else 1

/-- Slice `propertyEntries.slice(currentStep * 3, (currentStep + 1) * 3)` in
multi-step mode, the whole list otherwise. -/
def stepProperties (props : PropMap) (multiStep : Bool) (currentStep : Nat) : PropMap :=
  if multiStep then (props.drop (currentStep * 3)).take 3 else props

/-- The ordered list of step partitions in multi-step mode. -/
def allSteps (props : PropMap) : List PropMap :=
  (List.range (stepsCount props true)).map (stepProperties props true)

/-! ## Sample data used in witnesses and counterexamples -/

/-- A sample string-typed property. -/
def sampleStr : SchemaProperty := .mk .pstring (some "one") none none none none none none

/-- A sample number-typed property. -/
def sampleNum : SchemaProperty := .mk .pnumber (some "two") none none none none none none

/-- A sample boolean-typed property. -/
def sampleBool : SchemaProperty := .mk .pboolean (some "three") none none none none none none

/-- A sample object-typed property with one nested required field. -/
def sampleObj : SchemaProperty :=
  .mk .pobject none none none none none (some [("x", sampleStr)]) (some ["x"])

/-- A three-entry mapping whose keys are `a`, `b`, `c`. -/
def threeProps : PropMap := [("a", sampleStr), ("b", sampleNum), ("c", sampleBool)]

/-- A seven-entry mapping (for the multi-step claim). -/
def sevenProps : PropMap :=
  [("p1", sampleStr), ("p2", sampleNum), ("p3", sampleBool), ("p4", sampleStr),
   ("p5", sampleNum), ("p6", sampleBool), ("p7", sampleStr)]

/-! ## Helper lemmas about the JS-object model -/

theorem jsAny_eq_true_iff (m : List (String × α)) (k : String) :
    (m.any fun kv => kv.1 = k) = true ↔ k ∈ jsKeys m := by
  unfold jsKeys
  rw [List.any_eq_true]
  constructor
  · rintro ⟨kv, hmem, hk⟩
    rw [decide_eq_true_iff] at hk
    exact hk ▸ List.mem_map_of_mem Prod.fst hmem
  · intro hk
    rcases List.mem_map.mp hk with ⟨kv, hmem, hfst⟩
    exact ⟨kv, hmem, by rw [decide_eq_true_iff]; exact hfst⟩

theorem jsSet_of_not_mem (m : List (String × α)) (k : String) (v : α)
    (h : k ∉ jsKeys m) : jsSet m k v = m ++ [(k, v)] := by
  unfold jsSet
  rw [if_neg]
  intro hc
  exact h ((jsAny_eq_true_iff m k).mp hc)

theorem jsSet_of_mem (m : List (String × α)) (k : String) (v : α)
    (h : k ∈ jsKeys m) :
    jsSet m k v = m.map fun kv => if kv.1 = k then (k, v) else kv := by
  unfold jsSet
  rw [if_pos ((jsAny_eq_true_iff m k).mpr h)]

theorem jsGet_append_right (l₁ l₂ : List (String × α)) (k : String)
    (h : k ∉ jsKeys l₁) : jsGet (l₁ ++ l₂) k = jsGet l₂ k := by
  induction l₁ with
  | nil => rfl
  | cons kv rest ih =>
    have hne : ¬ kv.1 = k := by
      intro he
      exact h (by simp [jsKeys, he])
    have hrest : k ∉ jsKeys rest := by
      intro hm
      exact h (by simp [jsKeys] at hm ⊢; exact Or.inr hm)
    simp only [List.cons_append, jsGet, List.find?]
    rw [show (decide (kv.1 = k)) = false by simp [hne]]
    exact ih hrest

theorem jsGet_singleton (k : String) (v : α) : jsGet [(k, v)] k = some v := by
  simp [jsGet, List.find?]

/-! ## Claim theorems -/

/-- C7: for every properties mapping and required list, renaming a property
to a blank string or to its own current name leaves both the properties
mapping and the required list byte-for-byte unchanged (silent ignore, not an
error). -/
theorem c7_rename_blank_or_same_is_noop (props : PropMap) (req : List String)
    (oldName newName : String) (h : isBlank newName = true ∨ oldName = newName) :
    renameProperty props req oldName newName = (props, req) := by
  unfold renameProperty
  rcases h with h | h
  · rw [if_pos (Or.inr h)]
  · rw [if_pos (Or.inl h)]

/-- Witness for C7 at a blank new name and at the property's own name. -/
theorem c7_rename_blank_or_same_is_noop_witness :
    (isBlank "" = true ∨ ("a" : String) = "") ∧
    renameProperty [("a", sampleStr)] ["a"] "a" "" = ([("a", sampleStr)], ["a"]) ∧
    renameProperty [("a", sampleStr)] ["a"] "a" "a" = ([("a", sampleStr)], ["a"]) :=
  ⟨Or.inl (by decide),
   c7_rename_blank_or_same_is_noop [("a", sampleStr)] ["a"] "a" "" (Or.inl (by decide)),
   c7_rename_blank_or_same_is_noop [("a", sampleStr)] ["a"] "a" "a" (Or.inr rfl)⟩

theorem toggleRequired_of_mem (req : List String) (name : String)
    (h : name ∈ req) :
    toggleRequired req name = req.filter fun r => r ≠ name := by
  unfold toggleRequired
  rw [if_pos (by simpa using h)]

theorem toggleRequired_of_not_mem (req : List String) (name : String)
    (h : name ∉ req) : toggleRequired req name = req ++ [name] := by
  unfold toggleRequired
  rw [if_neg (by simpa using h)]

/-- C9: for every required list and every property name present in the
properties mapping, toggling required twice in succession on that name
returns the required list to its original membership (equal as a set,
order-independent content). -/
theorem c9_toggle_twice_same_membership (props : PropMap) (req : List String)
    (name : String) (_h : name ∈ jsKeys props) :
    ∀ x, x ∈ toggleRequired (toggleRequired req name) name ↔ x ∈ req := by
  intro x
  by_cases hmem : name ∈ req
  · rw [toggleRequired_of_mem req name hmem,
      toggleRequired_of_not_mem _ name (by simp)]
    by_cases hx : x = name
    · subst hx
      simp [hmem]
    · simp [hx]
  · rw [toggleRequired_of_not_mem req name hmem,
      toggleRequired_of_mem _ name (by simp)]
    by_cases hx : x = name
    · subst hx
      simp [hmem]
    · simp [hx]

/-- Witness for C9: a present property toggled twice from an empty required
list. -/
theorem c9_toggle_twice_same_membership_witness :
    "a" ∈ jsKeys [("a", sampleStr)] ∧
    ∀ x, x ∈ toggleRequired (toggleRequired ["b"] "a") "a" ↔ x ∈ ["b"] :=
  ⟨by simp [jsKeys],
   c9_toggle_twice_same_membership [("a", sampleStr)] ["b"] "a" (by simp [jsKeys])⟩

/-- C5 counterexample: toggling required on a name with no property of that
name is not a no-op — `toggleRequired` never consults the mapping and appends
the name to the required list. -/
theorem c5_counterexample :
    "ghost" ∉ jsKeys ([] : PropMap) ∧
    toggleRequiredState ([] : PropMap) [] "ghost" ≠ (([] : PropMap), ([] : List String)) := by
  constructor
  · simp [jsKeys]
  · simp [toggleRequiredState, toggleRequired]

/-- C5 as amended: toggling required on a name adds the name to the local
required list if absent and removes it if present, and never changes the
properties mapping; the mapping is not consulted, so the operation is not a
no-op on names without a property. -/
theorem c5_toggle_required_amended (props : PropMap) (req : List String)
    (name : String) :
    (toggleRequiredState props req name).1 = props ∧
    (name ∈ req →
      (toggleRequiredState props req name).2 = req.filter fun r => r ≠ name) ∧
    (name ∉ req → (toggleRequiredState props req name).2 = req ++ [name]) := by
  refine ⟨rfl, ?_, ?_⟩
  · intro hmem
    exact toggleRequired_of_mem req name hmem
  · intro hmem
    exact toggleRequired_of_not_mem req name hmem

/-- Witness for C5's amended statement on a concrete state. -/
theorem c5_toggle_required_amended_witness :
    (toggleRequiredState [("a", sampleStr)] ["a"] "a").1 = [("a", sampleStr)] ∧
    (toggleRequiredState [("a", sampleStr)] ["a"] "a").2 = ["a"].filter (fun r => r ≠ "a") ∧
    (toggleRequiredState [("a", sampleStr)] [] "a").2 = [] ++ ["a"] :=
  ⟨(c5_toggle_required_amended [("a", sampleStr)] ["a"] "a").1,
   (c5_toggle_required_amended [("a", sampleStr)] ["a"] "a").2.1 (by simp),
   (c5_toggle_required_amended [("a", sampleStr)] [] "a").2.2 (by simp)⟩

/-- C4 counterexample: retyping an object property to `string` sets
`properties` to absent but leaves the nested `required` list in place — the
nested required list is not dropped, contrary to the claim. -/
theorem c4_counterexample :
    sampleObj.type = PropType.pobject ∧
    PropType.pstring ≠ PropType.pobject ∧
    (retypeProperty sampleObj .pstring).properties = none ∧
    (retypeProperty sampleObj .pstring).required = some ["x"] :=
  ⟨rfl, by decide, rfl, rfl⟩

/-- C4 as amended: updating a property with a type other than object drops
its nested properties map, but the nested required list (and every other
attribute) is carried over unchanged by the spread — only `properties` is
reset. -/
theorem c4_retype_drops_only_properties (p : SchemaProperty) (v : PropType)
    (h : v ≠ .pobject) :
    (retypeProperty p v).type = v ∧
    (retypeProperty p v).properties = none ∧
    (retypeProperty p v).required = p.required ∧
    (retypeProperty p v).description = p.description ∧
    (retypeProperty p v).enum = p.enum ∧
    (retypeProperty p v).format = p.format ∧
    (retypeProperty p v).multiple = p.multiple := by
  cases p with
  | mk t d e f m i ps r =>
    refine ⟨rfl, ?_, rfl, rfl, rfl, rfl, rfl⟩
    simp [retypeProperty, SchemaProperty.properties, if_neg h]

/-- Witness for C4's amended statement: the sample object property retyped to
`string`. -/
theorem c4_retype_drops_only_properties_witness :
    (retypeProperty sampleObj .pstring).properties = none ∧
    (retypeProperty sampleObj .pstring).required = sampleObj.required :=
  ⟨(c4_retype_drops_only_properties sampleObj .pstring (by decide)).2.1,
   (c4_retype_drops_only_properties sampleObj .pstring (by decide)).2.2.1⟩

/-- C8: every enum-editing operation (enable select mode, add option, edit
option, remove option) preserves the invariant that a property's enum
attribute, when present, is a non-empty list; enabling select mode on a
property without an enum initializes it to a one-element list of an empty
string; and removing an option that empties the list collapses enum to
absent rather than leaving an empty list. -/
theorem c8_enum_operations_invariant (p : SchemaProperty) (h : enumOk p) :
    enumOk (enableSelectMode p) ∧
    enumOk (addEnumOption p) ∧
    (∀ i s, enumOk (editEnumOption p i s)) ∧
    (∀ i, enumOk (removeEnumOption p i)) ∧
    (p.enum = none → (enableSelectMode p).enum = some [""]) ∧
    (∀ l i, p.enum = some l → l.eraseIdx i = [] →
      (removeEnumOption p i).enum = none) := by
  cases p with
  | mk t d e f m i ps r =>
    cases e with
    | none =>
      refine ⟨by simp [enableSelectMode, enumOk, SchemaProperty.enum], ?_, ?_, ?_, ?_, ?_⟩
      · simp [addEnumOption, enumOk, SchemaProperty.enum]
      · intro i s
        simpa [editEnumOption] using h
      · intro i
        simpa [removeEnumOption] using h
      · intro _
        rfl
      · intro l i hsome
        simp [SchemaProperty.enum] at hsome
    | some l =>
      have hl : l ≠ [] := by simpa [enumOk, SchemaProperty.enum] using h
      refine ⟨?_, ?_, ?_, ?_, ?_, ?_⟩
      · simpa [enableSelectMode, enumOk, SchemaProperty.enum] using hl
      · simp [addEnumOption, enumOk, SchemaProperty.enum]
      · intro i s
        have : l.set i s ≠ [] := by
          intro hc
          exact hl (List.eq_nil_of_length_eq_zero (by
            simpa [List.length_set] using congrArg List.length hc))
        simpa [editEnumOption, enumOk, SchemaProperty.enum] using this
      · intro i
        simp only [removeEnumOption, enumOk, SchemaProperty.enum]
        by_cases hlen : (l.eraseIdx i).length > 0
        · rw [if_pos hlen]
          simp only []
          exact fun hc => by simp [hc] at hlen
        · rw [if_neg hlen]
          trivial
      · intro hsome
        simp [SchemaProperty.enum] at hsome
      · intro l' i hsome herase
        have hll : l = l' := by simpa [SchemaProperty.enum] using hsome
        subst hll
        simp [removeEnumOption, SchemaProperty.enum, herase]

/-- Witness for C8 on a property satisfying the invariant (no enum). -/
theorem c8_enum_operations_invariant_witness :
    enumOk (enableSelectMode sampleStr) ∧
    (enableSelectMode sampleStr).enum = some [""] := by
  have h := c8_enum_operations_invariant sampleStr trivial
  exact ⟨h.1, h.2.2.2.2.1 rfl⟩

theorem jsGet_overwrite (m : List (String × α)) (k : String) (v : α)
    (h : k ∈ jsKeys m) :
    jsGet (m.map fun kv => if kv.1 = k then (k, v) else kv) k = some v := by
  induction m with
  | nil => simp [jsKeys] at h
  | cons kv rest ih =>
    by_cases hk : kv.1 = k
    · simp [jsGet, List.find?, hk]
    · have hrest : k ∈ jsKeys rest := by
        rcases List.mem_map.mp h with ⟨kv', hmem', hfst'⟩
        rcases List.mem_cons.mp hmem' with he | hm
        · exact absurd (he ▸ hfst') hk
        · exact hfst' ▸ List.mem_map_of_mem Prod.fst hm
      simp only [List.map_cons, jsGet, List.find?, if_neg hk]
      rw [show (decide (kv.1 = k)) = false by simp [hk]]
      exact ih hrest

/-- C10 (implicit): when the generated default name `property_<count+1>`
collides with an existing sibling key, Add property silently replaces that
sibling's definition with the default `{type: string, description: ""}` at
its existing position instead of appending, so the sibling count does not
increase and the key order is unchanged. -/
theorem c10_add_collision_replaces_in_place (props : PropMap)
    (h : ("property_" ++ toString (props.length + 1)) ∈ jsKeys props) :
    (addProperty props).length = props.length ∧
    jsKeys (addProperty props) = jsKeys props ∧
    jsGet (addProperty props) ("property_" ++ toString (props.length + 1)) =
      some defaultProp := by
  unfold addProperty
  rw [jsSet_of_mem _ _ _ h]
  refine ⟨List.length_map _ _, ?_, jsGet_overwrite _ _ _ h⟩
  unfold jsKeys
  rw [List.map_map]
  refine List.map_congr_left fun kv _ => ?_
  by_cases hk : kv.1 = ("property_" ++ toString (props.length + 1))
  · simp [Function.comp, hk]
  · simp [Function.comp, hk]

/-- Witness for C10: one sibling manually renamed to `property_2`, so the
next generated name (count 1, hence `property_2`) collides. -/
theorem c10_add_collision_replaces_in_place_witness :
    (addProperty [("property_2", sampleStr)]).length = 1 ∧
    jsKeys (addProperty [("property_2", sampleStr)]) = ["property_2"] ∧
    jsGet (addProperty [("property_2", sampleStr)]) "property_2" = some defaultProp := by
  have h := c10_add_collision_replaces_in_place [("property_2", sampleStr)] (by decide)
  exact ⟨h.1, h.2.1, h.2.2⟩

/-- C2 counterexample: renaming `a` to `b` when `b` is already a key of the
mapping overwrites `b` in place, so the renamed entry is *not* moved to the
end of the mapping (the claim's order clause fails), even though `b` replaces
`a` in the required list. -/
theorem c2_counterexample :
    isBlank "b" = false ∧ ("b" : String) ≠ "a" ∧ ("a" : String) ∈ ["a"] ∧
    "a" ∈ jsKeys threeProps ∧
    jsKeys (renameProperty threeProps ["a"] "a" "b").1 = ["b", "c"] ∧
    (jsKeys (renameProperty threeProps ["a"] "a" "b").1).getLast? ≠ some "b" := by
  refine ⟨by decide, by decide, by decide, by decide, ?_, ?_⟩ <;> decide

/-- C2 as amended: renaming a present property `a` to a non-blank name `b`
distinct from `a` and *not already a key of the mapping*, when `a` was
required, puts `b` (not `a`) in the required list, removes key `a`, moves the
value formerly at `a` to key `b`, and places the renamed entry at the end of
the mapping.  (When `b` is already a key, it is overwritten in place and
keeps its old position.) -/
theorem renameProperty_eq_of_fresh (props : PropMap) (req : List String)
    (a b : String) (v : SchemaProperty) (hget : jsGet props a = some v)
    (hfresh : b ∉ jsKeys props) (hab : a ≠ b) (hblank : isBlank b = false)
    (hreq : a ∈ req) :
    renameProperty props req a b =
      ((props.filter fun kv => kv.1 ≠ a) ++ [(b, v)],
        req.map fun r => if r = a then b else r) := by
  have hguard : ¬ (a = b ∨ isBlank b = true) := by
    rintro (h | h)
    · exact hab h
    · rw [hblank] at h
      cases h
  unfold renameProperty
  rw [if_neg hguard]
  simp only [hget]
  rw [jsSet_of_not_mem _ _ _ hfresh]
  have hbne : b ≠ a := Ne.symm hab
  have hprops : jsDelete (props ++ [(b, v)]) a =
      (props.filter fun kv => kv.1 ≠ a) ++ [(b, v)] := by
    unfold jsDelete
    rw [List.filter_append]
    congr 1
    simp [List.filter, hbne]
  rw [hprops, if_pos (by simpa using hreq)]

/-- C2 as amended: renaming a present property `a` to a non-blank name `b`
distinct from `a` and *not already a key of the mapping*, when `a` was
required, puts `b` (not `a`) in the required list, removes key `a`, moves the
value formerly at `a` to key `b`, and places the renamed entry at the end of
the mapping.  (When `b` is already a key, it is overwritten in place and
keeps its old position.) -/
theorem c2_rename_required_fresh_target (props : PropMap) (req : List String)
    (a b : String) (v : SchemaProperty) (hget : jsGet props a = some v)
    (hfresh : b ∉ jsKeys props) (hab : a ≠ b) (hblank : isBlank b = false)
    (hreq : a ∈ req) :
    b ∈ (renameProperty props req a b).2 ∧
    a ∉ (renameProperty props req a b).2 ∧
    a ∉ jsKeys (renameProperty props req a b).1 ∧
    jsGet (renameProperty props req a b).1 b = some v ∧
    (renameProperty props req a b).1.getLast? = some (b, v) := by
  rw [renameProperty_eq_of_fresh props req a b v hget hfresh hab hblank hreq]
  refine ⟨?_, ?_, ?_, ?_, ?_⟩
  · exact List.mem_map.mpr ⟨a, hreq, by simp⟩
  · intro hc
    rcases List.mem_map.mp hc with ⟨r, _, hr⟩
    by_cases hra : r = a
    · rw [if_pos hra] at hr
      exact hab hr.symm
    · rw [if_neg hra] at hr
      exact hra hr
  · intro hc
    unfold jsKeys at hc
    rw [List.map_append, List.mem_append] at hc
    rcases hc with hc | hc
    · rcases List.mem_map.mp hc with ⟨kv, hkv, hfst⟩
      have := (List.mem_filter.mp hkv).2
      rw [hfst] at this
      simp at this
    · simp at hc
      exact hab hc
  · rw [jsGet_append_right]
    · exact jsGet_singleton b v
    · intro hc
      rcases List.mem_map.mp hc with ⟨kv, hkv, hfst⟩
      exact hfresh (hfst ▸ List.mem_map_of_mem Prod.fst (List.mem_of_mem_filter hkv))
  · exact List.getLast?_concat _

/-- Witness for C2's amended statement: rename required `a` to fresh `b` in a
two-entry mapping. -/
theorem c2_rename_required_fresh_target_witness :
    "b" ∈ (renameProperty [("a", sampleStr), ("c", sampleBool)] ["a"] "a" "b").2 ∧
    "a" ∉ (renameProperty [("a", sampleStr), ("c", sampleBool)] ["a"] "a" "b").2 ∧
    "a" ∉ jsKeys (renameProperty [("a", sampleStr), ("c", sampleBool)] ["a"] "a" "b").1 ∧
    jsGet (renameProperty [("a", sampleStr), ("c", sampleBool)] ["a"] "a" "b").1 "b" =
      some sampleStr ∧
    (renameProperty [("a", sampleStr), ("c", sampleBool)] ["a"] "a" "b").1.getLast? =
      some ("b", sampleStr) :=
  c2_rename_required_fresh_target [("a", sampleStr), ("c", sampleBool)] ["a"]
    "a" "b" sampleStr rfl (by decide) (by decide) (by decide) (by decide)

theorem stepsCount_true (props : PropMap) :
    stepsCount props true = (props.length + 2) / 3 := rfl

theorem stepProperties_true (props : PropMap) (i : Nat) :
    stepProperties props true i = (props.drop (i * 3)).take 3 := rfl

theorem chunk3_join_aux : ∀ (n : Nat) (l : List α), l.length ≤ n →
    ((List.range ((l.length + 2) / 3)).map fun i => (l.drop (i * 3)).take 3).flatten = l := by
  intro n
  induction n with
  | zero =>
    intro l h
    have hl : l = [] := List.eq_nil_of_length_eq_zero (Nat.le_zero.mp h)
    subst hl
    simp
  | succ n ih =>
    intro l h
    cases l with
    | nil => simp
    | cons x xs =>
      have hcount : ((x :: xs).length + 2) / 3 =
          (((x :: xs).drop 3).length + 2) / 3 + 1 := by
        simp only [List.length_drop, List.length_cons]
        omega
      rw [hcount, List.range_succ_eq_map, List.map_cons, List.map_map,
        List.flatten_cons]
      have hfun : ((fun i => (List.take 3 (List.drop (i * 3) (x :: xs)))) ∘ Nat.succ) =
          fun i => (((x :: xs).drop 3).drop (i * 3)).take 3 := by
        funext i
        simp only [Function.comp, List.drop_drop]
        congr 2
        omega
      rw [hfun]
      have hlen : ((x :: xs).drop 3).length ≤ n := by
        simp only [List.length_drop, List.length_cons]
        simp only [List.length_cons] at h
        omega
      rw [ih ((x :: xs).drop 3) hlen]
      simp

/-- C3: in multi-step mode the render plan partitions the ordered top-level
property list into consecutive groups of 3 in original order; the step count
is `ceil(n / 3)` (the unique multiple of 3 in `[n, n + 2]` divided by 3);
concatenating the steps in order reproduces the original list; and for
`n = 7` the step count is 3 with chunk sizes 3, 3, 1. -/
theorem c3_multistep_partition (props : PropMap) :
    (allSteps props).flatten = props ∧
    props.length ≤ 3 * stepsCount props true ∧
    3 * stepsCount props true ≤ props.length + 2 ∧
    (∀ s ∈ allSteps props, s.length ≤ 3) ∧
    (props.length = 7 →
      stepsCount props true = 3 ∧ (allSteps props).map List.length = [3, 3, 1]) := by
  refine ⟨?_, ?_, ?_, ?_, ?_⟩
  · have := chunk3_join_aux props.length props (Nat.le_refl _)
    unfold allSteps
    rw [stepsCount_true]
    calc ((List.range ((props.length + 2) / 3)).map (stepProperties props true)).flatten
        = ((List.range ((props.length + 2) / 3)).map
            fun i => (props.drop (i * 3)).take 3).flatten := by
          rw [List.map_congr_left fun i _ => stepProperties_true props i]
      _ = props := this
  · rw [stepsCount_true]
    omega
  · rw [stepsCount_true]
    omega
  · intro s hs
    rcases List.mem_map.mp hs with ⟨i, _, hsi⟩
    rw [← hsi, stepProperties_true]
    exact List.length_take_le 3 _
  · intro h7
    have hcnt : stepsCount props true = 3 := by
      rw [stepsCount_true, h7]
    refine ⟨hcnt, ?_⟩
    have hrange : List.range (stepsCount props true) = [0, 1, 2] := by
      rw [hcnt]
      simp [List.range_succ]
    unfold allSteps
    rw [hrange]
    simp only [List.map_cons, List.map_nil, stepProperties_true]
    simp [List.length_take, List.length_drop, h7]

/-- Witness for C3's seven-property clause on a concrete schema. -/
theorem c3_multistep_partition_witness :
    (allSteps sevenProps).flatten = sevenProps ∧
    stepsCount sevenProps true = 3 ∧
    (allSteps sevenProps).map List.length = [3, 3, 1] := by
  have h := c3_multistep_partition sevenProps
  have h7 := h.2.2.2.2 (by rfl)
  exact ⟨h.1, h7.1, h7.2⟩

mutual

theorem compileProp_matches_spec : ∀ (p : SchemaProperty),
    compileProp p = specRuleFor p
  | .mk t d e f m i ps r => by
    cases t with
    | pstring =>
      by_cases h1 : f = some "email"
      · simp [compileProp, specRuleFor, h1]
      · by_cases h2 : f = some "date" ∨ f = some "date-time"
        · simp [compileProp, specRuleFor, h1, h2]
        · cases e with
          | none => simp [compileProp, specRuleFor, h1, h2]
          | some l =>
            cases m with
            | none => simp [compileProp, specRuleFor, h1, h2]
            | some b => cases b <;> simp [compileProp, specRuleFor, h1, h2]
    | pnumber => rfl
    | pboolean => rfl
    | parray => rfl
    | pobject =>
      cases ps with
      | none => rfl
      | some props =>
        have hsub := compileShape_matches_spec props (r.getD [])
        simp [compileProp, specRuleFor, hsub]

theorem compileShape_matches_spec : ∀ (props : List (String × SchemaProperty))
    (req : List String), compileShape props req = specShapeFor props req
  | [], _ => rfl
  | (k, p) :: rest, req => by
    have h1 := compileProp_matches_spec p
    have h2 := compileShape_matches_spec rest req
    simp [compileShape, specShapeFor, h1, h2]

end

/-- C1: the compiled validation ruleset equals, field for field, the ruleset
the specification's type/format table prescribes — email format requires a
valid email, date formats a date value, enum with multiple a sequence of
strings, other strings a string, number a numeric value, boolean a boolean,
object with properties the recursively compiled sub-ruleset, object without
properties any object, array any sequence — and every field not in the local
required list is wrapped optional, and an optional rule accepts absence
(`undefined`). -/
theorem c1_compiler_assigns_table_rules (props : PropMap) (req : List String) :
    createZodSchema props req = specZodSchema props req ∧
    (∀ r : Rule, check (.opt r) .jundef = true) := by
  constructor
  · unfold createZodSchema specZodSchema
    rw [compileShape_matches_spec props req]
  · intro r
    simp [check]

/-- C6: a non-numeric or empty number input (one `parseFloat` turns into
`NaN`) is coerced to `0` before validation, and the claim's scenario — schema
`{name: string, price: number}` with both required, submission
`{name: "Widget", price: "not-a-number"}` — passes the compiled ruleset
because the coerced `0` is numeric. -/
theorem c6_coercion_before_validation (s : String) (h : parseFloatQ s = none) :
    coerceNumberInput s = 0 ∧
    check (createZodSchema [("name", sampleStr), ("price", sampleNum)] ["name", "price"])
      (.jobj [("name", .jstr "Widget"),
        ("price", .jnum (coerceNumberInput "not-a-number"))]) = true := by
  constructor
  · simp [coerceNumberInput, h]
  · have hc : coerceNumberInput "not-a-number" = 0 := by decide
    rw [hc]
    simp [createZodSchema, compileShape, compileProp, check, checkFields,
      jsGet, sampleStr, sampleNum, List.find?]

/-- Witness for C6 at the claim's own failing-then-coerced input. -/
theorem c6_coercion_before_validation_witness :
    coerceNumberInput "not-a-number" = 0 ∧
    check (createZodSchema [("name", sampleStr), ("price", sampleNum)] ["name", "price"])
      (.jobj [("name", .jstr "Widget"),
        ("price", .jnum (coerceNumberInput "not-a-number"))]) = true :=
  c6_coercion_before_validation "not-a-number" (by decide)

end PSB
